import Mathlib

/-!
Verification of the codepair session relay.

Shallow embedding of the WebSocket relay subsystem of the `codepair`
repository (the `wss.on('connection', ...)` handler in `registerRoutes`):
the connection registry (`connectedClients`), the session membership table
(`sessionClients`), the per-connection message handler and the close
handler, together with the storage side effects they emit.

Modelling conventions:
* JavaScript `Map` and `Set` are modelled as association lists and
  duplicate-free lists preserving insertion order.
* A JS number field that may be `undefined` is modelled as `Option Nat`;
  `none` stands for a missing field, and JS truthiness of a number
  variable (`if (userId)`) is `truthyN` (`none` and `some 0` are falsy).
* The payload's `fileId` is `Option Nat` where `none` models an absent or
  otherwise falsy file id (the code only tests `if (data.payload.fileId)`).
* External storage calls (`storage.*`) and socket sends are recorded as a
  trace of `Effect`s, in the order the code performs them.  The external
  user store is a parameter `userExists : Nat → Bool` deciding whether
  `storage.getUser` finds a user.
* A thrown exception inside the message handler (e.g. reading
  `data.payload.fileId` when `payload` is `undefined`) is caught by the
  surrounding `try/catch`, which logs; effects already performed stay.
-/

namespace CodePair

/-- The wire event kinds of `MessageType` in `shared/schema.ts`. -/
inductive MessageType where
  | codeChange
  | cursorMove
  | fileCreate
  | fileDelete
  | chatMessage
  | sessionJoin
  | sessionLeave
  | terminalOutput
  | terminalInput
  deriving DecidableEq, Repr

/-- The kind-specific payload fields the relay ever reads.  Every field may
be `undefined` on the wire, hence `Option`. `userId` appears in the
synthesized leave payload of the close handler. -/
structure Payload where
  fileId : Option Nat := none
  content : Option String := none
  name : Option String := none
  language : Option String := none
  userId : Option Nat := none
  deriving DecidableEq, Repr

/-- A parsed `WebSocketMessage`.  `JSON.parse` followed by a blind cast
means every field may be missing, hence `Option`. -/
structure WsMessage where
  type : Option MessageType := none
  sessionId : Option Nat := none
  userId : Option Nat := none
  payload : Option Payload := none
  deriving DecidableEq, Repr

/-- JS truthiness of a numeric variable that may be `null`/`undefined`:
`0`, `null` and `undefined` are falsy. -/
def truthyN : Option Nat → Bool
  | none => false
  | some n => n != 0

/-- `Map.get`: first binding of the key in the association list. -/
def mapGet {α β : Type} [DecidableEq α] : List (α × β) → α → Option β
  | [], _ => none
  | p :: t, k => if p.1 = k then some p.2 else mapGet t k

/-- `Map.has`. -/
def mapHas {α β : Type} [DecidableEq α] (m : List (α × β)) (k : α) : Bool :=
  (mapGet m k).isSome

/-- `Map.set`: update in place if present (JS keeps insertion order),
otherwise append. -/
def mapSet {α β : Type} [DecidableEq α] (m : List (α × β)) (k : α) (v : β) :
    List (α × β) :=
  if mapHas m k then m.map (fun p => if p.1 = k then (k, v) else p)
  else m ++ [(k, v)]

/-- `Map.delete`. -/
def mapDelete {α β : Type} [DecidableEq α] (m : List (α × β)) (k : α) :
    List (α × β) :=
  m.filter (fun p => p.1 ≠ k)

/-- In-place mutation of the value stored at a key, as performed by
`map.get(k)?.add(x)` / `map.get(k)?.delete(x)`: a no-op if absent. -/
def mapAdjust {α β : Type} [DecidableEq α] (m : List (α × β)) (k : α)
    (f : β → β) : List (α × β) :=
  m.map (fun p => if p.1 = k then (k, f p.2) else p)

/-- `Set.add`: append if not already present (insertion order kept). -/
def setAdd {α : Type} [DecidableEq α] (l : List α) (a : α) : List α :=
  if a ∈ l then l else l ++ [a]

/-- `Set.delete`. -/
def setDelete {α : Type} [DecidableEq α] (l : List α) (a : α) : List α :=
  l.filter (fun x => x ≠ a)

/-- The per-connection closure state of the handler: the `userId` and
`sessionId` local variables, plus whether the socket is still open
(`readyState === OPEN`). -/
structure ConnInfo where
  userId : Option Nat := none
  sessionId : Option Nat := none
  isOpen : Bool := true
  deriving DecidableEq, Repr

/-- The relay's global mutable state: `connectedClients : Map<number, WebSocket>`
(participant id, possibly `undefined`, to socket handle modelled as a
connection number), `sessionClients : Map<number, Set<number>>`, and the
per-connection closure states indexed by connection number. -/
structure RelayState where
  connectedClients : List (Option Nat × Nat) := []
  sessionClients : List (Option Nat × List (Option Nat)) := []
  conns : List (Nat × ConnInfo) := []
  deriving DecidableEq, Repr

/-- Observable side effects, in program order: socket sends and calls on
the external `storage` collaborator, plus a logged (swallowed) error. -/
inductive Effect where
  | send (conn : Nat) (m : WsMessage)
  | updateFile (fileId : Nat) (content : Option String)
  | createFile (sessionId : Nat) (name : Option String)
      (content : String) (language : String)
  | endSession (sessionId : Nat)
  | getUser (u : Nat)
  | setUserOnline (u : Nat) (online : Bool)
  | logError
  deriving DecidableEq, Repr

/-- Is a connection's socket currently open? -/
def connOpen (st : RelayState) (c : Nat) : Bool :=
  match mapGet st.conns c with
  | some info => info.isOpen
  | none => false

/-- The members of a session as the relay sees them (`[]` if unknown). -/
def membersOf (st : RelayState) (s : Nat) : List (Option Nat) :=
  (mapGet st.sessionClients (some s)).getD []

/-- `data.payload.language || 'javascript'` (empty string is falsy). -/
def langOr : Option String → String
  | none => "javascript"
  | some l => if l = "" then "javascript" else l

/-- `if (!userId) userId = data.userId`: the user id in effect for this
message (first truthy binding wins for the life of the connection). -/
def effUid (info : ConnInfo) (m : WsMessage) : Option Nat :=
  if truthyN info.userId then info.userId else m.userId

/-- The session id in effect for this message: rebound to the envelope's
`sessionId` by a `session-join`, otherwise the remembered one. -/
def effSid (info : ConnInfo) (m : WsMessage) : Option Nat :=
  if m.type = some MessageType.sessionJoin then m.sessionId else info.sessionId

/-- The `SESSION_JOIN` mutation of `sessionClients`: ensure an entry for
the (possibly `undefined`) session key, then `add` the effective user. -/
def joinSessionClients (sc : List (Option Nat × List (Option Nat)))
    (sid uid : Option Nat) : List (Option Nat × List (Option Nat)) :=
  let sc0 := if mapHas sc sid then sc else mapSet sc sid []
  mapAdjust sc0 sid (fun l => setAdd l uid)

/-- The sends of the broadcast loop over a member list: skip the sender,
skip members absent from the registry or whose socket is not open;
everyone else receives the raw envelope `m`. -/
def sendTargets (st : RelayState) (cc : List (Option Nat × Nat))
    (mems : List (Option Nat)) (uid : Option Nat) (m : WsMessage) :
    List Effect :=
  mems.filterMap (fun x =>
    if x = uid then none
    else
      match mapGet cc x with
      | some cid => if connOpen st cid then some (Effect.send cid m) else none
      | none => none)

/-- The whole broadcast step: nothing unless the effective session id is
truthy and `sessionClients` has an entry for it. -/
def broadcastOf (st : RelayState) (cc : List (Option Nat × Nat))
    (sc : List (Option Nat × List (Option Nat))) (sid uid : Option Nat)
    (m : WsMessage) : List Effect :=
  if truthyN sid then
    match mapGet sc sid with
    | some mems => sendTargets st cc mems uid m
    | none => []
  else []

/-- The `switch (data.type)` tail of the message handler: the storage side
effects and the `SESSION_LEAVE` mutation of `sessionClients`.  Reading a
field of a missing `payload` throws, caught as a logged error. -/
def switchStep (sc : List (Option Nat × List (Option Nat)))
    (sid uid : Option Nat) (m : WsMessage) :
    List (Option Nat × List (Option Nat)) × List Effect :=
  match m.type with
  | some MessageType.codeChange =>
      (sc,
        match m.payload with
        | none => [Effect.logError]
        | some p =>
            match p.fileId with
            | some f => [Effect.updateFile f p.content]
            | none => [])
  | some MessageType.fileCreate =>
      (sc,
        if truthyN sid then
          match m.payload with
          | none => [Effect.logError]
          | some p =>
              [Effect.createFile (sid.getD 0) p.name (p.content.getD "")
                (langOr p.language)]
        else [])
  | some MessageType.sessionLeave =>
      if truthyN sid && truthyN uid then
        let sc2 := mapAdjust sc sid (fun l => setDelete l uid)
        (sc2,
          if mapGet sc2 sid = some [] then [Effect.endSession (sid.getD 0)]
          else [])
      else (sc, [])
  | _ => (sc, [])

/-- The `ws.on('message')` handler for a message that parsed, lines 33-104
of the route file: bind identity, handle `session-join`, broadcast to the
effective session, then the type-specific switch. -/
def handleParsed (st : RelayState) (c : Nat) (info : ConnInfo)
    (m : WsMessage) : RelayState × List Effect :=
  let uid := effUid info m
  let isJoin := m.type = some MessageType.sessionJoin
  let sid := effSid info m
  let sc1 := if isJoin then joinSessionClients st.sessionClients sid uid
             else st.sessionClients
  let cc1 := if isJoin then mapSet st.connectedClients uid c
             else st.connectedClients
  let sends := broadcastOf st cc1 sc1 sid uid m
  let sw := switchStep sc1 sid uid m
  let info' : ConnInfo := { userId := uid, sessionId := sid, isOpen := info.isOpen }
  ({ connectedClients := cc1, sessionClients := sw.1,
     conns := mapSet st.conns c info' },
   sends ++ sw.2)

/-- The `ws.on('close')` handler, lines 106-147: mark the socket closed,
and if an identity was bound, unregister it, mark the user offline in
storage, perform the implicit leave on the remembered session, broadcast a
synthesized `session-leave`, and end the session if now empty. -/
def handleClose (userExists : Nat → Bool) (st : RelayState) (c : Nat)
    (info : ConnInfo) : RelayState × List Effect :=
  let conns1 := mapSet st.conns c { info with isOpen := false }
  if truthyN info.userId then
    let u := info.userId.getD 0
    let cc1 := mapDelete st.connectedClients info.userId
    let userEffs := Effect.getUser u ::
      (if userExists u then [Effect.setUserOnline u false] else [])
    if truthyN info.sessionId then
      let sc1 := mapAdjust st.sessionClients info.sessionId
        (fun l => setDelete l info.userId)
      match mapGet sc1 info.sessionId with
      | some mems =>
          let leaveMsg : WsMessage :=
            { type := some MessageType.sessionLeave,
              sessionId := info.sessionId, userId := info.userId,
              payload := some { userId := info.userId } }
          let st1 : RelayState :=
            { connectedClients := cc1, sessionClients := sc1, conns := conns1 }
          let sends := mems.filterMap (fun x =>
            match mapGet cc1 x with
            | some cid =>
                if connOpen st1 cid then some (Effect.send cid leaveMsg)
                else none
            | none => none)
          let endEffs := if mems = ([] : List (Option Nat)) then
              [Effect.endSession (info.sessionId.getD 0)]
            else []
          (st1, userEffs ++ sends ++ endEffs)
      | none =>
          ({ connectedClients := cc1, sessionClients := sc1, conns := conns1 },
           userEffs)
    else
      ({ connectedClients := cc1, sessionClients := st.sessionClients,
         conns := conns1 }, userEffs)
  else
    ({ st with conns := conns1 }, [])

/-- World-level events: a socket opens, delivers a message that parses,
delivers a message `JSON.parse` rejects, or closes. -/
inductive Event where
  | connect (c : Nat)
  | msg (c : Nat) (m : WsMessage)
  | unparseable (c : Nat)
  | close (c : Nat)
  deriving DecidableEq, Repr

/-- One dispatcher step.  Messages and closes are only delivered for
sockets that exist and are open (the transport serialises a connection's
events and never delivers after close). -/
def step (userExists : Nat → Bool) (st : RelayState) : Event → RelayState × List Effect
  | Event.connect c =>
      if mapHas st.conns c then (st, [])
      else ({ st with conns := mapSet st.conns c {} }, [])
  | Event.msg c m =>
      match mapGet st.conns c with
      | some info => if info.isOpen then handleParsed st c info m else (st, [])
      | none => (st, [])
  | Event.unparseable c =>
      match mapGet st.conns c with
      | some info => if info.isOpen then (st, [Effect.logError]) else (st, [])
      | none => (st, [])
  | Event.close c =>
      match mapGet st.conns c with
      | some info =>
          if info.isOpen then handleClose userExists st c info else (st, [])
      | none => (st, [])

/-- The empty initial state. -/
def initState : RelayState := {}

/-- A well-formed `session-join` envelope. -/
def joinMsg (s u : Nat) : WsMessage :=
  { type := some MessageType.sessionJoin, sessionId := some s, userId := some u }

/-- A well-formed `session-leave` envelope. -/
def leaveMsg (s u : Nat) : WsMessage :=
  { type := some MessageType.sessionLeave, sessionId := some s, userId := some u }

/-- A well-formed `chat-message` envelope (payload opaque to the relay). -/
def chatMsg (s u : Nat) : WsMessage :=
  { type := some MessageType.chatMessage, sessionId := some s, userId := some u }

/-- A well-formed `code-change` envelope carrying a file id and content. -/
def codeChangeMsg (s u f : Nat) (content : String) : WsMessage :=
  { type := some MessageType.codeChange, sessionId := some s, userId := some u,
    payload := some { fileId := some f, content := some content } }

/-- Run a trace of events, accumulating the effect log. -/
def run (userExists : Nat → Bool) (evts : List Event) :
    RelayState × List Effect :=
  evts.foldl
    (fun acc e =>
      let r := step userExists acc.1 e
      (r.1, acc.2 ++ r.2))
    (initState, [])

/-- Resulting state of a trace started from an arbitrary state. -/
def runState (userExists : Nat → Bool) (st : RelayState)
    (evts : List Event) : RelayState :=
  evts.foldl (fun s e => (step userExists s e).1) st

/-- A user store in which every participant id exists. -/
def allUsers : Nat → Bool := fun _ => true

/-- Open sockets `0, …, n-1`. -/
def connectTrace (n : Nat) : List Event :=
  (List.range n).map Event.connect

/-- One join (`true`) or leave (`false`) message by participant `i` (on
socket `i`, carrying user id `u i`) for session `S`. -/
def jlEvent {n : Nat} (S : Nat) (u : Fin n → Nat) (e : Fin n × Bool) :
    Event :=
  Event.msg e.1.val (if e.2 then joinMsg S (u e.1) else leaveMsg S (u e.1))

/-- Did participant `i` occur in the event list at all? -/
def everSeen {n : Nat} (done : List (Fin n × Bool)) (i : Fin n) : Bool :=
  done.any (fun e => e.1 = i)

/-- Did participant `i` ever join? -/
def everJoined {n : Nat} (done : List (Fin n × Bool)) (i : Fin n) : Bool :=
  done.any (fun e => e.1 = i && e.2)

/-- Is participant `i`'s most recent event a join (joined more recently
than last left)?  `false` if `i` never occurred. -/
def lastJoined {n : Nat} (done : List (Fin n × Bool)) (i : Fin n) : Bool :=
  done.foldl (fun acc e => if e.1 = i then e.2 else acc) false

/-- Invariant for the join/leave scenario: after processing `done`, each
socket `i` has bound identity `u i` iff seen, remembers session `S` iff it
ever joined, and session `S`'s member set holds exactly the participants
whose most recent event is a join. -/
def jlInv {n : Nat} (S : Nat) (u : Fin n → Nat)
    (done : List (Fin n × Bool)) (st : RelayState) : Prop :=
  (∀ i : Fin n, mapGet st.conns i.val = some
    { userId := if everSeen done i then some (u i) else none,
      sessionId := if everJoined done i then some S else none,
      isOpen := true }) ∧
  ((mapGet st.sessionClients (some S) = none ∧
      ∀ i : Fin n, everJoined done i = false) ∨
   (∃ l, mapGet st.sessionClients (some S) = some l ∧
      ∀ x, x ∈ l ↔ ∃ i : Fin n, x = some (u i) ∧ lastJoined done i = true))

/-- Three participants (ids 1,2,3 on sockets 0,1,2) all join session 7,
then depart one by one in the order given by `order`; participant `i`
departs by explicit leave if `mix i`, by disconnect otherwise. -/
def threeDepartTrace (order : Fin 3 → Fin 3) (mix : Fin 3 → Bool) :
    List Event :=
  connectTrace 3 ++
  (List.finRange 3).map (fun i => Event.msg i.val (joinMsg 7 (i.val + 1))) ++
  (List.finRange 3).map (fun k =>
    let i := order k
    if mix i then Event.msg i.val (leaveMsg 7 (i.val + 1))
    else Event.close i.val)

/-- Inbound activity on a single connection: a parsed message, a message
`JSON.parse` rejects, or the close of the socket. -/
inductive SoloEv where
  | msg (m : WsMessage)
  | unparseable
  | close
  deriving DecidableEq, Repr

/-- Interpret one piece of single-connection activity as an event on
socket `0`. -/
def soloEvent : SoloEv → Event
  | SoloEv.msg m => Event.msg 0 m
  | SoloEv.unparseable => Event.unparseable 0
  | SoloEv.close => Event.close 0

/-- Interpret single-connection activity as events on socket `0`. -/
def soloTrace (l : List SoloEv) : List Event :=
  Event.connect 0 :: l.map soloEvent

/-- Every parsed message of the activity carries user id `u`. -/
def soloUserOk (u : Nat) (l : List SoloEv) : Prop :=
  ∀ m, SoloEv.msg m ∈ l → m.userId = some u

/-- Did the activity contain a `session-join` message? -/
def soloHasJoin (l : List SoloEv) : Bool :=
  l.any (fun e =>
    match e with
    | SoloEv.msg m => m.type = some MessageType.sessionJoin
    | _ => false)

/-- Did the socket close? -/
def soloHasClose (l : List SoloEv) : Bool :=
  l.any (fun e =>
    match e with
    | SoloEv.close => true
    | _ => false)

/-- Invariant for the single-connection registry scenario: summary flags
(`anyMsg`, `joined`, `closed`) determine socket `0`'s closure state and
the whole connection registry. -/
def soloInv (u : Nat) (anyMsg joined closed : Bool) (st : RelayState) :
    Prop :=
  (∃ sid, mapGet st.conns 0 = some
    { userId := if anyMsg then some u else none,
      sessionId := sid, isOpen := !closed }) ∧
  st.connectedClients =
    (if joined && !closed then [(some u, 0)] else [])

/-- One step of the `(anyMsg, joined, closed)` summary flags of
`soloInv`: activity after the close is ignored, a delivered message marks
`anyMsg` (and `joined` if it is a `session-join`), a close marks
`closed`. -/
def soloFlagStep (f : Bool × Bool × Bool) (e : SoloEv) :
    Bool × Bool × Bool :=
  match e with
  | SoloEv.msg m =>
      if f.2.2 then f
      else (true,
        f.2.1 || decide (m.type = some MessageType.sessionJoin), false)
  | SoloEv.unparseable => f
  | SoloEv.close => if f.2.2 then f else (f.1, f.2.1, true)

/-- Fold the summary flags of `soloInv` over the activity. -/
def soloFlags (l : List SoloEv) : Bool × Bool × Bool :=
  l.foldl soloFlagStep (false, false, false)

/-! Lemmas about the map and set embeddings -/

theorem mapGet_append {α β : Type} [DecidableEq α]
    (m₁ m₂ : List (α × β)) (k : α) :
    mapGet (m₁ ++ m₂) k =
      if (mapGet m₁ k).isSome then mapGet m₁ k else mapGet m₂ k := by
  induction m₁ with
  | nil => simp [mapGet]
  | cons p t ih =>
      by_cases hp : p.1 = k
      · simp [mapGet, hp]
      · simp only [List.cons_append, mapGet, if_neg hp]
        exact ih

theorem mapGet_map_replace {α β : Type} [DecidableEq α]
    (m : List (α × β)) (k : α) (v : β) :
    mapGet (m.map (fun p => if p.1 = k then (k, v) else p)) k =
      if mapHas m k then some v else none := by
  induction m with
  | nil => simp [mapGet, mapHas]
  | cons p t ih =>
      by_cases h : p.1 = k
      · simp [mapGet, mapHas, h]
      · simp only [List.map_cons, if_neg h]
        rw [mapGet, if_neg h, ih]
        simp [mapHas, mapGet, h]

theorem mapGet_map_replace_ne {α β : Type} [DecidableEq α]
    (m : List (α × β)) {k k' : α} (v : β) (h : k' ≠ k) :
    mapGet (m.map (fun p => if p.1 = k then (k, v) else p)) k' =
      mapGet m k' := by
  induction m with
  | nil => simp [mapGet]
  | cons p t ih =>
      by_cases hp : p.1 = k
      · rw [List.map_cons, if_pos hp, mapGet, mapGet,
          if_neg (fun hh => h hh.symm), if_neg (fun hh => h (hp ▸ hh).symm)]
        exact ih
      · rw [List.map_cons, if_neg hp, mapGet, mapGet]
        by_cases hp' : p.1 = k'
        · simp [hp']
        · rw [if_neg hp', if_neg hp']
          exact ih

theorem mapGet_mapSet_self {α β : Type} [DecidableEq α]
    (m : List (α × β)) (k : α) (v : β) :
    mapGet (mapSet m k v) k = some v := by
  unfold mapSet
  by_cases h : mapHas m k
  · rw [if_pos h, mapGet_map_replace, if_pos h]
  · rw [if_neg h, mapGet_append]
    unfold mapHas at h
    simp only [Bool.not_eq_true] at h
    rw [h]
    simp [mapGet]

theorem mapGet_mapSet_ne {α β : Type} [DecidableEq α]
    (m : List (α × β)) {k k' : α} (v : β) (h : k' ≠ k) :
    mapGet (mapSet m k v) k' = mapGet m k' := by
  unfold mapSet
  by_cases hk : mapHas m k
  · rw [if_pos hk, mapGet_map_replace_ne m v h]
  · rw [if_neg hk, mapGet_append]
    by_cases hs : (mapGet m k').isSome
    · rw [if_pos hs]
    · rw [if_neg hs]
      have hnone : mapGet m k' = none := by
        cases hg : mapGet m k' with
        | none => rfl
        | some v' => rw [hg] at hs; simp at hs
      rw [hnone]
      simp only [mapGet]
      rw [if_neg (fun hh : k = k' => h hh.symm)]

theorem mapGet_mapAdjust_self {α β : Type} [DecidableEq α]
    (m : List (α × β)) (k : α) (f : β → β) :
    mapGet (mapAdjust m k f) k = (mapGet m k).map f := by
  induction m with
  | nil => simp [mapAdjust, mapGet]
  | cons p t ih =>
      by_cases hp : p.1 = k
      · simp [mapAdjust, mapGet, hp]
      · simp only [mapAdjust, List.map_cons, if_neg hp]
        rw [mapGet, if_neg hp, mapGet, if_neg hp]
        exact ih

theorem mapGet_mapAdjust_ne {α β : Type} [DecidableEq α]
    (m : List (α × β)) {k k' : α} (f : β → β) (h : k' ≠ k) :
    mapGet (mapAdjust m k f) k' = mapGet m k' := by
  induction m with
  | nil => simp [mapAdjust, mapGet]
  | cons p t ih =>
      by_cases hp : p.1 = k
      · rw [mapAdjust, List.map_cons, if_pos hp]
        rw [mapGet, mapGet, if_neg (fun hh => h hh.symm),
          if_neg (fun hh => h (hp ▸ hh).symm)]
        exact ih
      · rw [mapAdjust, List.map_cons, if_neg hp, mapGet, mapGet]
        by_cases hp' : p.1 = k'
        · simp [hp']
        · rw [if_neg hp', if_neg hp']
          exact ih

theorem mapDelete_cons {α β : Type} [DecidableEq α]
    (p : α × β) (t : List (α × β)) (k : α) :
    mapDelete (p :: t) k =
      if p.1 = k then mapDelete t k else p :: mapDelete t k := by
  by_cases hp : p.1 = k <;> simp [mapDelete, List.filter_cons, hp]

theorem mapGet_mapDelete_self {α β : Type} [DecidableEq α]
    (m : List (α × β)) (k : α) :
    mapGet (mapDelete m k) k = none := by
  induction m with
  | nil => simp [mapDelete, mapGet]
  | cons p t ih =>
      rw [mapDelete_cons]
      by_cases hp : p.1 = k
      · rw [if_pos hp]; exact ih
      · rw [if_neg hp, mapGet, if_neg hp]; exact ih

theorem mapGet_mapDelete_ne {α β : Type} [DecidableEq α]
    (m : List (α × β)) {k k' : α} (h : k' ≠ k) :
    mapGet (mapDelete m k) k' = mapGet m k' := by
  induction m with
  | nil => simp [mapDelete, mapGet]
  | cons p t ih =>
      rw [mapDelete_cons]
      by_cases hp : p.1 = k
      · rw [if_pos hp, mapGet, if_neg (fun hh => h (hh.symm.trans hp))]
        exact ih
      · rw [if_neg hp, mapGet, mapGet]
        by_cases hp' : p.1 = k'
        · simp [hp']
        · rw [if_neg hp', if_neg hp']
          exact ih

theorem mem_setAdd {α : Type} [DecidableEq α] (l : List α) (a x : α) :
    x ∈ setAdd l a ↔ x ∈ l ∨ x = a := by
  unfold setAdd
  by_cases h : a ∈ l
  · rw [if_pos h]
    constructor
    · exact Or.inl
    · rintro (hx | rfl) <;> [exact hx; exact h]
  · rw [if_neg h]
    simp

theorem setAdd_of_mem {α : Type} [DecidableEq α] {l : List α} {a : α}
    (h : a ∈ l) : setAdd l a = l := by
  simp [setAdd, h]

theorem mem_setDelete {α : Type} [DecidableEq α] (l : List α) (a x : α) :
    x ∈ setDelete l a ↔ x ∈ l ∧ x ≠ a := by
  simp [setDelete, List.mem_filter]

/-! Lemmas about the broadcast loop and the switch -/

theorem sendTargets_shape (st : RelayState) (cc : List (Option Nat × Nat))
    (mems : List (Option Nat)) (uid : Option Nat) (m : WsMessage) :
    ∀ e ∈ sendTargets st cc mems uid m, ∃ cid, e = Effect.send cid m := by
  intro e he
  unfold sendTargets at he
  rw [List.mem_filterMap] at he
  obtain ⟨x, _, hfx⟩ := he
  by_cases hxu : x = uid
  · simp [hxu] at hfx
  · rw [if_neg hxu] at hfx
    cases hg : mapGet cc x with
    | none => simp [hg] at hfx
    | some cid =>
        simp only [hg] at hfx
        by_cases ho : connOpen st cid = true
        · rw [if_pos ho] at hfx
          exact ⟨cid, (Option.some_injective _ hfx).symm⟩
        · simp [ho] at hfx

theorem send_mem_sendTargets (st : RelayState) (cc : List (Option Nat × Nat))
    (mems : List (Option Nat)) (uid : Option Nat) (m : WsMessage) (cid : Nat) :
    Effect.send cid m ∈ sendTargets st cc mems uid m ↔
      ∃ x, x ∈ mems ∧ x ≠ uid ∧ mapGet cc x = some cid ∧
        connOpen st cid = true := by
  unfold sendTargets
  rw [List.mem_filterMap]
  constructor
  · rintro ⟨x, hx, hfx⟩
    refine ⟨x, hx, ?_⟩
    by_cases hxu : x = uid
    · simp [hxu] at hfx
    · rw [if_neg hxu] at hfx
      cases hg : mapGet cc x with
      | none => simp [hg] at hfx
      | some cid' =>
          simp only [hg] at hfx
          by_cases ho : connOpen st cid' = true
          · rw [if_pos ho] at hfx
            simp only [Option.some.injEq, Effect.send.injEq] at hfx
            obtain ⟨h1, -⟩ := hfx
            exact ⟨hxu, congrArg some h1, h1 ▸ ho⟩
          · simp [ho] at hfx
  · rintro ⟨x, hx, hxu, hg, ho⟩
    refine ⟨x, hx, ?_⟩
    rw [if_neg hxu]
    simp only [hg]
    rw [if_pos ho]

theorem broadcastOf_shape (st : RelayState) (cc : List (Option Nat × Nat))
    (sc : List (Option Nat × List (Option Nat))) (sid uid : Option Nat)
    (m : WsMessage) :
    ∀ e ∈ broadcastOf st cc sc sid uid m, ∃ cid, e = Effect.send cid m := by
  intro e he
  unfold broadcastOf at he
  by_cases ht : truthyN sid
  · rw [if_pos ht] at he
    cases hg : mapGet sc sid with
    | none => rw [hg] at he; simp at he
    | some mems =>
        rw [hg] at he
        exact sendTargets_shape st cc mems uid m e he
  · rw [if_neg (by simpa using ht)] at he
    simp at he

theorem switchStep_no_send (sc : List (Option Nat × List (Option Nat)))
    (sid uid : Option Nat) (m : WsMessage) (cid : Nat) (m' : WsMessage) :
    Effect.send cid m' ∉ (switchStep sc sid uid m).2 := by
  intro he
  unfold switchStep at he
  repeat' split at he
  all_goals simp at he

theorem switchStep_sc_of_falsy (sc : List (Option Nat × List (Option Nat)))
    (sid uid : Option Nat) (m : WsMessage) (hs : truthyN sid = false) :
    (switchStep sc sid uid m).1 = sc := by
  unfold switchStep
  repeat' split
  all_goals simp_all

theorem switchStep_sc_of_not_leave
    (sc : List (Option Nat × List (Option Nat))) (sid uid : Option Nat)
    (m : WsMessage) (hm : m.type ≠ some MessageType.sessionLeave) :
    (switchStep sc sid uid m).1 = sc := by
  unfold switchStep
  repeat' split
  all_goals simp_all

/-! C7: joining twice is idempotent -/

/-- C7: joining a session is idempotent — processing a second
`session-join` for a participant already in the session's membership set
leaves that set unchanged (same list, so same elements and size), and no
error is logged. -/
theorem join_idempotent (ue : Nat → Bool) (st : RelayState) (c : Nat)
    (info : ConnInfo) (S u : Nat) (m : WsMessage)
    (hconn : mapGet st.conns c = some info) (hopen : info.isOpen = true)
    (huid : info.userId = some u) (hu : u ≠ 0)
    (htype : m.type = some MessageType.sessionJoin)
    (hsid : m.sessionId = some S)
    (hmem : some u ∈ membersOf st S) :
    membersOf (step ue st (Event.msg c m)).1 S = membersOf st S ∧
      Effect.logError ∉ (step ue st (Event.msg c m)).2 := by
  obtain ⟨l, hl, hul⟩ : ∃ l, mapGet st.sessionClients (some S) = some l ∧
      some u ∈ l := by
    cases hg : mapGet st.sessionClients (some S) with
    | none => rw [membersOf, hg] at hmem; simp at hmem
    | some l => exact ⟨l, rfl, by rwa [membersOf, hg] at hmem⟩
  have htr : truthyN info.userId = true := by simp [truthyN, huid, hu]
  have huid' : effUid info m = some u := by
    rw [effUid, if_pos htr, huid]
  have hstep : step ue st (Event.msg c m) = handleParsed st c info m := by
    simp [step, hconn, hopen]
  rw [hstep]
  have hnl : m.type ≠ some MessageType.sessionLeave := by rw [htype]; simp
  have hget1 : mapGet (joinSessionClients st.sessionClients (some S) (some u))
      (some S) = some l := by
    rw [joinSessionClients, if_pos (by simp [mapHas, hl]),
      mapGet_mapAdjust_self, hl]
    simp [setAdd_of_mem hul]
  constructor
  · simp only [handleParsed, effSid, if_pos htype, huid', hsid]
    rw [membersOf, membersOf, hl]
    simp only [switchStep_sc_of_not_leave _ _ _ m hnl]
    rw [hget1]
  · intro habs
    simp only [handleParsed, effSid, if_pos htype, huid', hsid,
      List.mem_append] at habs
    rcases habs with h1 | h2
    · obtain ⟨cid, hcid⟩ := broadcastOf_shape _ _ _ _ _ _ _ h1
      cases hcid
    · rw [switchStep, htype] at h2
      simp at h2

/-! C9: events before the first join are inert -/

/-- C9: any event received on a connection whose remembered session id is
not yet (truthily) bound — in particular any event before the first
`session-join` — is broadcast to no one and mutates neither the
connection registry nor any session's membership set; only a
`session-join` can register the connection or extend a membership set. -/
theorem pre_join_inert (ue : Nat → Bool) (st : RelayState) (c : Nat)
    (info : ConnInfo) (m : WsMessage)
    (hconn : mapGet st.conns c = some info) (hopen : info.isOpen = true)
    (hsid : truthyN info.sessionId = false)
    (htype : m.type ≠ some MessageType.sessionJoin) :
    (step ue st (Event.msg c m)).1.connectedClients = st.connectedClients ∧
    (step ue st (Event.msg c m)).1.sessionClients = st.sessionClients ∧
    ∀ cid m', Effect.send cid m' ∉ (step ue st (Event.msg c m)).2 := by
  have hstep : step ue st (Event.msg c m) = handleParsed st c info m := by
    simp [step, hconn, hopen]
  have hsid' : effSid info m = info.sessionId := by
    simp [effSid, htype]
  rw [hstep]
  simp only [handleParsed, if_neg htype, hsid']
  refine ⟨trivial, ?_, ?_⟩
  · exact switchStep_sc_of_falsy _ _ _ m hsid
  · intro cid m' habs
    rw [List.mem_append] at habs
    rcases habs with h1 | h2
    · rw [broadcastOf, if_neg (by simp [hsid])] at h1
      simp at h1
    · exact switchStep_no_send _ _ _ m cid m' h2

/-! Characterization of a non-join step's sends -/

theorem switchStep_endSession_name (sc : List (Option Nat × List (Option Nat)))
    (S : Nat) (uid : Option Nat) (m : WsMessage) (n : Nat)
    (hn : Effect.endSession n ∈ (switchStep sc (some S) uid m).2) :
    n = S := by
  unfold switchStep at hn
  repeat' split at hn
  all_goals simp_all

theorem switchStep_sc_other_key (sc : List (Option Nat × List (Option Nat)))
    (sid uid : Option Nat) (m : WsMessage) (K : Option Nat) (hK : K ≠ sid) :
    mapGet (switchStep sc sid uid m).1 K = mapGet sc K := by
  unfold switchStep
  repeat' split
  all_goals try rfl
  all_goals simp_all [mapGet_mapAdjust_ne _ _ hK]

theorem step_nonjoin_send_char (ue : Nat → Bool) (st : RelayState) (c : Nat)
    (info : ConnInfo) (m : WsMessage) (S u : Nat)
    (hconn : mapGet st.conns c = some info) (hopen : info.isOpen = true)
    (huid : info.userId = some u) (hu : u ≠ 0)
    (hsid : info.sessionId = some S) (hS : S ≠ 0)
    (htype : m.type ≠ some MessageType.sessionJoin) :
    (∀ e ∈ (step ue st (Event.msg c m)).2,
        (∃ cid, e = Effect.send cid m) ∨ e ∈ (switchStep st.sessionClients
          (some S) (some u) m).2) ∧
    (∀ cid, Effect.send cid m ∈ (step ue st (Event.msg c m)).2 ↔
      ∃ x, x ∈ membersOf st S ∧ x ≠ some u ∧
        mapGet st.connectedClients x = some cid ∧ connOpen st cid = true) := by
  have hstep : step ue st (Event.msg c m) = handleParsed st c info m := by
    simp [step, hconn, hopen]
  have htr : truthyN info.userId = true := by simp [truthyN, huid, hu]
  have huid' : effUid info m = some u := by rw [effUid, if_pos htr, huid]
  have hsid' : effSid info m = some S := by rw [effSid, if_neg htype, hsid]
  rw [hstep]
  simp only [handleParsed, if_neg htype, huid', hsid']
  have htrS : truthyN (some S) = true := by simp [truthyN, hS]
  constructor
  · intro e he
    rw [List.mem_append] at he
    rcases he with h1 | h2
    · exact Or.inl (broadcastOf_shape _ _ _ _ _ _ _ h1)
    · exact Or.inr h2
  · intro cid
    rw [List.mem_append]
    constructor
    · rintro (h1 | h2)
      · rw [broadcastOf, if_pos htrS] at h1
        cases hg : mapGet st.sessionClients (some S) with
        | none => rw [hg] at h1; simp at h1
        | some mems =>
            rw [hg] at h1
            rw [send_mem_sendTargets] at h1
            obtain ⟨x, hx, hrest⟩ := h1
            exact ⟨x, by rwa [membersOf, hg], hrest⟩
      · exact absurd h2 (switchStep_no_send _ _ _ _ _ _)
    · rintro ⟨x, hx, hxu, hcc, ho⟩
      left
      rw [broadcastOf, if_pos htrS]
      cases hg : mapGet st.sessionClients (some S) with
      | none => rw [membersOf, hg] at hx; simp at hx
      | some mems =>
          rw [send_mem_sendTargets]
          exact ⟨x, by rwa [membersOf, hg] at hx, hxu, hcc, ho⟩

/-! C2: broadcast delivers to exactly the other open members -/

/-- C2: an event from a joined sender is forwarded unmodified, a send to a
socket happens exactly when it is the registered open socket of a member
of the sender's session other than the sender, and (as long as no other
member's registry entry points at the sender's own socket) the sender
never receives its own event; absent or closed members are simply
skipped. -/
theorem broadcast_exact (ue : Nat → Bool) (st : RelayState) (c : Nat)
    (info : ConnInfo) (m : WsMessage) (S u : Nat)
    (hconn : mapGet st.conns c = some info) (hopen : info.isOpen = true)
    (huid : info.userId = some u) (hu : u ≠ 0)
    (hsid : info.sessionId = some S) (hS : S ≠ 0)
    (htype : m.type ≠ some MessageType.sessionJoin) :
    (∀ cid m', Effect.send cid m' ∈ (step ue st (Event.msg c m)).2 → m' = m) ∧
    (∀ cid, Effect.send cid m ∈ (step ue st (Event.msg c m)).2 ↔
      ∃ x, x ∈ membersOf st S ∧ x ≠ some u ∧
        mapGet st.connectedClients x = some cid ∧ connOpen st cid = true) ∧
    ((∀ x ∈ membersOf st S, mapGet st.connectedClients x = some c →
        x = some u) →
      ∀ m', Effect.send c m' ∉ (step ue st (Event.msg c m)).2) := by
  obtain ⟨hshape, hchar⟩ :=
    step_nonjoin_send_char ue st c info m S u hconn hopen huid hu hsid hS htype
  have hm' : ∀ cid m', Effect.send cid m' ∈ (step ue st (Event.msg c m)).2 →
      m' = m := by
    intro cid m' hmem
    rcases hshape _ hmem with ⟨cid', heq⟩ | habs
    · cases heq; rfl
    · exact absurd habs (switchStep_no_send _ _ _ _ _ _)
  refine ⟨hm', hchar, ?_⟩
  intro hnoself m' hmem
  have hm'm := hm' _ _ hmem
  subst hm'm
  rw [hchar c] at hmem
  obtain ⟨x, hx, hxu, hcc, -⟩ := hmem
  exact hxu (hnoself x hx hcc)

/-! C10: the remembered session governs fan-out and mutation -/

/-- C10: after a join, broadcast recipients are determined by the
connection's remembered session `S` — even if the envelope names a
different session `T`, the event is fanned out to `S`'s members, the
membership set of `T` (and of any session other than `S`) is untouched,
and any session-end effect of the step names `S`. -/
theorem remembered_session_governs (ue : Nat → Bool) (st : RelayState)
    (c : Nat) (info : ConnInfo) (m : WsMessage) (S T u : Nat)
    (hconn : mapGet st.conns c = some info) (hopen : info.isOpen = true)
    (huid : info.userId = some u) (hu : u ≠ 0)
    (hsid : info.sessionId = some S) (hS : S ≠ 0)
    (htype : m.type ≠ some MessageType.sessionJoin)
    (henv : m.sessionId = some T) (hT : T ≠ S) :
    (∀ cid, Effect.send cid m ∈ (step ue st (Event.msg c m)).2 ↔
      ∃ x, x ∈ membersOf st S ∧ x ≠ some u ∧
        mapGet st.connectedClients x = some cid ∧ connOpen st cid = true) ∧
    membersOf (step ue st (Event.msg c m)).1 T = membersOf st T ∧
    (∀ n, Effect.endSession n ∈ (step ue st (Event.msg c m)).2 → n = S) := by
  obtain ⟨hshape, hchar⟩ :=
    step_nonjoin_send_char ue st c info m S u hconn hopen huid hu hsid hS htype
  refine ⟨hchar, ?_, ?_⟩
  · have hstep : step ue st (Event.msg c m) = handleParsed st c info m := by
      simp [step, hconn, hopen]
    have htr : truthyN info.userId = true := by simp [truthyN, huid, hu]
    have huid' : effUid info m = some u := by rw [effUid, if_pos htr, huid]
    have hsid' : effSid info m = some S := by rw [effSid, if_neg htype, hsid]
    rw [hstep]
    simp only [handleParsed, if_neg htype, huid', hsid']
    rw [membersOf, membersOf,
      switchStep_sc_other_key _ _ _ _ _ (by simpa using hT)]
  · intro n hn
    rcases hshape _ hn with ⟨cid, heq⟩ | hsw
    · cases heq
    · exact switchStep_endSession_name _ _ _ _ _ hsw

/-! C6: storage side effects happen after the broadcast -/

/-- C6: a `code-change` event carrying a file id from a joined sender
produces exactly one storage call — `updateFile` with the event's file id
and content — and it is the last effect of the step, strictly after every
broadcast send (which all carry the unmodified event); hence a failure of
the storage call cannot retract the already-emitted sends. -/
theorem code_change_after_broadcast (ue : Nat → Bool) (st : RelayState)
    (c : Nat) (info : ConnInfo) (m : WsMessage) (S u f : Nat) (p : Payload)
    (hconn : mapGet st.conns c = some info) (hopen : info.isOpen = true)
    (huid : info.userId = some u) (hu : u ≠ 0)
    (hsid : info.sessionId = some S)
    (htype : m.type = some MessageType.codeChange)
    (hp : m.payload = some p) (hf : p.fileId = some f) :
    ∃ pre, (step ue st (Event.msg c m)).2 =
        pre ++ [Effect.updateFile f p.content] ∧
      ∀ e ∈ pre, ∃ cid, e = Effect.send cid m := by
  have hnj : m.type ≠ some MessageType.sessionJoin := by rw [htype]; simp
  have hstep : step ue st (Event.msg c m) = handleParsed st c info m := by
    simp [step, hconn, hopen]
  have htr : truthyN info.userId = true := by simp [truthyN, huid, hu]
  have huid' : effUid info m = some u := by rw [effUid, if_pos htr, huid]
  have hsid' : effSid info m = some S := by rw [effSid, if_neg hnj, hsid]
  have hsw : (switchStep st.sessionClients (some S) (some u) m).2 =
      [Effect.updateFile f p.content] := by
    rw [switchStep, htype]
    simp [hp, hf]
  rw [hstep]
  simp only [handleParsed, if_neg hnj, huid', hsid', hsw]
  exact ⟨broadcastOf st st.connectedClients st.sessionClients (some S)
      (some u) m, rfl,
    broadcastOf_shape st st.connectedClients st.sessionClients (some S)
      (some u) m⟩

/-! C8: malformed input -/

/-- C8 counterexample: a parsed message missing its required `payload`
field (a `code-change` with no payload) is *not* dropped without effect:
it is first broadcast to the other session member, and only then does the
handler throw and log.  The step's effects are a send followed by the
logged error, refuting "no broadcast effect is produced". -/
theorem malformed_broadcasts_first :
    (step allUsers
      (run allUsers [Event.connect 0, Event.connect 1,
        Event.msg 0 (joinMsg 7 1), Event.msg 1 (joinMsg 7 2)]).1
      (Event.msg 0
        { type := some MessageType.codeChange, sessionId := some 7,
          userId := some 1 })).2 =
    [Effect.send 1
        { type := some MessageType.codeChange, sessionId := some 7,
          userId := some 1 },
      Effect.logError] := by
  decide

/-- C8 (amended): a non-parseable message is dropped with only a logged
error and no state change, and no inbound message — well-formed or
malformed — ever closes any connection or terminates the dispatcher: the
open/closed status of every socket is preserved by every message step.
(A parsed message missing required fields, however, may broadcast before
its error is thrown; see the counterexample.) -/
theorem malformed_no_close (ue : Nat → Bool) (st : RelayState) (c : Nat)
    (m : WsMessage) :
    (∀ info, mapGet st.conns c = some info → info.isOpen = true →
      (step ue st (Event.unparseable c)).1 = st ∧
      (step ue st (Event.unparseable c)).2 = [Effect.logError]) ∧
    (∀ d, connOpen (step ue st (Event.msg c m)).1 d = connOpen st d) ∧
    (∀ d, connOpen (step ue st (Event.unparseable c)).1 d = connOpen st d) := by
  refine ⟨?_, ?_, ?_⟩
  · intro info hconn hopen
    constructor <;> simp [step, hconn, hopen]
  · intro d
    rw [step]
    cases hconn : mapGet st.conns c with
    | none => rfl
    | some info =>
        show connOpen
          (if info.isOpen = true then handleParsed st c info m
           else (st, [])).1 d = connOpen st d
        by_cases hopen : info.isOpen = true
        · rw [if_pos hopen]
          by_cases hdc : d = c
          · subst hdc
            rw [connOpen, connOpen, handleParsed]
            simp only [mapGet_mapSet_self, hconn]
          · rw [connOpen, connOpen, handleParsed]
            simp only [mapGet_mapSet_ne _ _ hdc]
        · rw [if_neg hopen]
  · intro d
    rw [step]
    cases hconn : mapGet st.conns c with
    | none => rfl
    | some info =>
        show connOpen
          (if info.isOpen = true then (st, [Effect.logError])
           else (st, ([] : List Effect))).1 d = connOpen st d
        by_cases hopen : info.isOpen = true
        · rw [if_pos hopen]
        · rw [if_neg hopen]

/-! C1 counterexample: endSession can fire twice for one session -/

/-- C1 counterexample: participant 1 joins session 7, explicitly leaves
(membership reaches zero and `endSession(7)` is called), and then its
socket closes.  The close handler, still remembering session 7, finds the
empty member set and calls `endSession(7)` a second time — refuting
"endSession is invoked at most once per session". -/
theorem endSession_twice :
    ((run allUsers [Event.connect 0, Event.msg 0 (joinMsg 7 1),
        Event.msg 0 (leaveMsg 7 1), Event.close 0]).2.count
      (Effect.endSession 7)) = 2 := by
  decide

/-! C4 counterexample: a first event does not register the connection -/

/-- C4 counterexample: a connection whose first (and only) inbound event
is a `chat-message` has sent an event and has not closed, yet the
connection registry is still empty — only a `session-join` registers.
This refutes "present in the registry iff it has sent at least one event
and has not closed". -/
theorem registry_needs_join :
    (run allUsers [Event.connect 0, Event.msg 0 (chatMsg 7 1)]).1.connectedClients
        = [] ∧
    connOpen (run allUsers [Event.connect 0, Event.msg 0 (chatMsg 7 1)]).1 0
        = true := by
  decide

/-! C5: join then silent disconnect of the only member -/

/-- C5: participant `u` joins session `S` and then its connection closes
without a `session-leave`.  The session's membership set becomes empty,
and the whole trace calls `endSession S` exactly once and
`setUserOnline u false` exactly once (the user exists in the store). -/
theorem lone_member_disconnect (ue : Nat → Bool) (u S : Nat)
    (hu : u ≠ 0) (hS : S ≠ 0) (hue : ue u = true) :
    membersOf (run ue [Event.connect 0, Event.msg 0 (joinMsg S u),
        Event.close 0]).1 S = [] ∧
    ((run ue [Event.connect 0, Event.msg 0 (joinMsg S u),
        Event.close 0]).2.count (Effect.endSession S)) = 1 ∧
    ((run ue [Event.connect 0, Event.msg 0 (joinMsg S u),
        Event.close 0]).2.count (Effect.setUserOnline u false)) = 1 := by
  have heff : (run ue [Event.connect 0, Event.msg 0 (joinMsg S u),
      Event.close 0]).2 =
      [Effect.getUser u, Effect.setUserOnline u false,
        Effect.endSession S] := by
    simp [run, step, initState, mapHas, mapGet, mapSet, mapAdjust, mapDelete,
      handleParsed, handleClose, effUid, effSid, truthyN, hu, hS, hue,
      joinMsg, joinSessionClients, broadcastOf, sendTargets, switchStep,
      setAdd, setDelete, connOpen]
  have hmem : membersOf (run ue [Event.connect 0, Event.msg 0 (joinMsg S u),
      Event.close 0]).1 S = [] := by
    simp [run, step, initState, mapHas, mapGet, mapSet, mapAdjust, mapDelete,
      handleParsed, handleClose, effUid, effSid, truthyN, hu, hS, hue,
      joinMsg, joinSessionClients, broadcastOf, sendTargets, switchStep,
      setAdd, setDelete, connOpen, membersOf]
  refine ⟨hmem, ?_, ?_⟩ <;> rw [heff] <;>
    simp [List.count_cons, List.count_nil]

/-! Witnesses -/

/-- Witness for `join_idempotent`: participant 1 re-joins session 7. -/
theorem join_idempotent_witness :
    membersOf (step allUsers
      (run allUsers [Event.connect 0, Event.msg 0 (joinMsg 7 1)]).1
      (Event.msg 0 (joinMsg 7 1))).1 7 =
    membersOf (run allUsers [Event.connect 0, Event.msg 0 (joinMsg 7 1)]).1 7 ∧
    Effect.logError ∉ (step allUsers
      (run allUsers [Event.connect 0, Event.msg 0 (joinMsg 7 1)]).1
      (Event.msg 0 (joinMsg 7 1))).2 :=
  join_idempotent allUsers _ 0 { userId := some 1, sessionId := some 7 }
    7 1 (joinMsg 7 1) (by decide) rfl rfl (by decide) rfl rfl (by decide)

/-- Witness for `pre_join_inert`: a chat message on a fresh connection. -/
theorem pre_join_inert_witness :
    (step allUsers (run allUsers [Event.connect 0]).1
        (Event.msg 0 (chatMsg 7 1))).1.connectedClients =
      (run allUsers [Event.connect 0]).1.connectedClients ∧
    (step allUsers (run allUsers [Event.connect 0]).1
        (Event.msg 0 (chatMsg 7 1))).1.sessionClients =
      (run allUsers [Event.connect 0]).1.sessionClients ∧
    ∀ cid m', Effect.send cid m' ∉ (step allUsers
      (run allUsers [Event.connect 0]).1 (Event.msg 0 (chatMsg 7 1))).2 :=
  pre_join_inert allUsers _ 0 {} (chatMsg 7 1) (by decide) rfl rfl (by decide)

/-- Witness for `broadcast_exact`: participants 1,2 in session 7,
participant 1 sends a chat message. -/
theorem broadcast_exact_witness :
    (∀ cid m', Effect.send cid m' ∈ (step allUsers
        (run allUsers [Event.connect 0, Event.connect 1,
          Event.msg 0 (joinMsg 7 1), Event.msg 1 (joinMsg 7 2)]).1
        (Event.msg 0 (chatMsg 7 1))).2 → m' = chatMsg 7 1) ∧
    (∀ cid, Effect.send cid (chatMsg 7 1) ∈ (step allUsers
        (run allUsers [Event.connect 0, Event.connect 1,
          Event.msg 0 (joinMsg 7 1), Event.msg 1 (joinMsg 7 2)]).1
        (Event.msg 0 (chatMsg 7 1))).2 ↔
      ∃ x, x ∈ membersOf (run allUsers [Event.connect 0, Event.connect 1,
          Event.msg 0 (joinMsg 7 1), Event.msg 1 (joinMsg 7 2)]).1 7 ∧
        x ≠ some 1 ∧
        mapGet (run allUsers [Event.connect 0, Event.connect 1,
          Event.msg 0 (joinMsg 7 1),
          Event.msg 1 (joinMsg 7 2)]).1.connectedClients x = some cid ∧
        connOpen (run allUsers [Event.connect 0, Event.connect 1,
          Event.msg 0 (joinMsg 7 1), Event.msg 1 (joinMsg 7 2)]).1 cid
          = true) ∧
    ((∀ x ∈ membersOf (run allUsers [Event.connect 0, Event.connect 1,
          Event.msg 0 (joinMsg 7 1), Event.msg 1 (joinMsg 7 2)]).1 7,
        mapGet (run allUsers [Event.connect 0, Event.connect 1,
          Event.msg 0 (joinMsg 7 1),
          Event.msg 1 (joinMsg 7 2)]).1.connectedClients x = some 0 →
          x = some 1) →
      ∀ m', Effect.send 0 m' ∉ (step allUsers
        (run allUsers [Event.connect 0, Event.connect 1,
          Event.msg 0 (joinMsg 7 1), Event.msg 1 (joinMsg 7 2)]).1
        (Event.msg 0 (chatMsg 7 1))).2) :=
  broadcast_exact allUsers _ 0 { userId := some 1, sessionId := some 7 }
    (chatMsg 7 1) 7 1 (by decide) rfl rfl (by decide) rfl (by decide)
    (by decide)

/-- Witness for `remembered_session_governs`: the envelope names session 9
while the connection remembers session 7. -/
theorem remembered_session_governs_witness :
    (∀ cid, Effect.send cid (chatMsg 9 1) ∈ (step allUsers
        (run allUsers [Event.connect 0, Event.connect 1,
          Event.msg 0 (joinMsg 7 1), Event.msg 1 (joinMsg 7 2)]).1
        (Event.msg 0 (chatMsg 9 1))).2 ↔
      ∃ x, x ∈ membersOf (run allUsers [Event.connect 0, Event.connect 1,
          Event.msg 0 (joinMsg 7 1), Event.msg 1 (joinMsg 7 2)]).1 7 ∧
        x ≠ some 1 ∧
        mapGet (run allUsers [Event.connect 0, Event.connect 1,
          Event.msg 0 (joinMsg 7 1),
          Event.msg 1 (joinMsg 7 2)]).1.connectedClients x = some cid ∧
        connOpen (run allUsers [Event.connect 0, Event.connect 1,
          Event.msg 0 (joinMsg 7 1), Event.msg 1 (joinMsg 7 2)]).1 cid
          = true) ∧
    membersOf (step allUsers
        (run allUsers [Event.connect 0, Event.connect 1,
          Event.msg 0 (joinMsg 7 1), Event.msg 1 (joinMsg 7 2)]).1
        (Event.msg 0 (chatMsg 9 1))).1 9 =
      membersOf (run allUsers [Event.connect 0, Event.connect 1,
        Event.msg 0 (joinMsg 7 1), Event.msg 1 (joinMsg 7 2)]).1 9 ∧
    (∀ n, Effect.endSession n ∈ (step allUsers
        (run allUsers [Event.connect 0, Event.connect 1,
          Event.msg 0 (joinMsg 7 1), Event.msg 1 (joinMsg 7 2)]).1
        (Event.msg 0 (chatMsg 9 1))).2 → n = 7) :=
  remembered_session_governs allUsers _ 0
    { userId := some 1, sessionId := some 7 } (chatMsg 9 1) 7 9 1
    (by decide) rfl rfl (by decide) rfl (by decide) (by decide) rfl
    (by decide)

/-- Witness for `code_change_after_broadcast`: the spec scenario —
participants 1 and 2 in session 7, participant 1 edits file 10. -/
theorem code_change_after_broadcast_witness :
    ∃ pre, (step allUsers
        (run allUsers [Event.connect 0, Event.connect 1,
          Event.msg 0 (joinMsg 7 1), Event.msg 1 (joinMsg 7 2)]).1
        (Event.msg 0 (codeChangeMsg 7 1 10 "x=1"))).2 =
      pre ++ [Effect.updateFile 10 (some "x=1")] ∧
      ∀ e ∈ pre, ∃ cid, e = Effect.send cid (codeChangeMsg 7 1 10 "x=1") :=
  code_change_after_broadcast allUsers _ 0
    { userId := some 1, sessionId := some 7 } (codeChangeMsg 7 1 10 "x=1")
    7 1 10 { fileId := some 10, content := some "x=1" }
    (by decide) rfl rfl (by decide) rfl rfl rfl rfl

/-- Witness for `lone_member_disconnect`: participant 1, session 7. -/
theorem lone_member_disconnect_witness :
    membersOf (run allUsers [Event.connect 0, Event.msg 0 (joinMsg 7 1),
        Event.close 0]).1 7 = [] ∧
    ((run allUsers [Event.connect 0, Event.msg 0 (joinMsg 7 1),
        Event.close 0]).2.count (Effect.endSession 7)) = 1 ∧
    ((run allUsers [Event.connect 0, Event.msg 0 (joinMsg 7 1),
        Event.close 0]).2.count (Effect.setUserOnline 1 false)) = 1 :=
  lone_member_disconnect allUsers 1 7 (by decide) (by decide) rfl

/-- Witness for `malformed_no_close`: a rejected message on connection 0
is logged and changes nothing, and a chat message closes no socket. -/
theorem malformed_no_close_witness :
    ((step allUsers (run allUsers [Event.connect 0]).1
        (Event.unparseable 0)).1 = (run allUsers [Event.connect 0]).1 ∧
      (step allUsers (run allUsers [Event.connect 0]).1
        (Event.unparseable 0)).2 = [Effect.logError]) ∧
    connOpen (step allUsers (run allUsers [Event.connect 0]).1
        (Event.msg 0 (chatMsg 7 1))).1 0 =
      connOpen (run allUsers [Event.connect 0]).1 0 :=
  ⟨(malformed_no_close allUsers _ 0 (chatMsg 7 1)).1 {} (by decide) rfl,
   (malformed_no_close allUsers _ 0 (chatMsg 7 1)).2.1 0⟩

/-! C1 (amended): one endSession per session when each member departs once -/

/-- C1 (amended): with three members of session 7 each departing exactly
once — in any order, by any mix of explicit leave and disconnect —
`endSession(7)` is invoked exactly once over the whole trace.  (The
original at-most-once claim fails when a connection departs twice, e.g.
leaves and then closes: see the counterexample.) -/
theorem endSession_once_per_departure (order : Fin 3 → Fin 3)
    (mix : Fin 3 → Bool) (hinj : Function.Injective order) :
    ((run allUsers (threeDepartTrace order mix)).2.count
      (Effect.endSession 7)) = 1 := by
  revert hinj
  revert mix
  revert order
  decide

/-- Witness for `endSession_once_per_departure`: identity order, all
three by explicit leave. -/
theorem endSession_once_per_departure_witness :
    ((run allUsers (threeDepartTrace id (fun _ => true))).2.count
      (Effect.endSession 7)) = 1 :=
  endSession_once_per_departure id (fun _ => true) (fun _ _ h => h)

/-! Projection lemmas for the handlers -/

theorem step_msg_open (ue : Nat → Bool) (st : RelayState) (c : Nat)
    (info : ConnInfo) (m : WsMessage)
    (hconn : mapGet st.conns c = some info) (hopen : info.isOpen = true) :
    step ue st (Event.msg c m) = handleParsed st c info m := by
  simp [step, hconn, hopen]

theorem step_msg_closed (ue : Nat → Bool) (st : RelayState) (c : Nat)
    (info : ConnInfo) (m : WsMessage)
    (hconn : mapGet st.conns c = some info) (hopen : info.isOpen = false) :
    step ue st (Event.msg c m) = (st, []) := by
  simp [step, hconn, hopen]

theorem step_close_open (ue : Nat → Bool) (st : RelayState) (c : Nat)
    (info : ConnInfo) (hconn : mapGet st.conns c = some info)
    (hopen : info.isOpen = true) :
    step ue st (Event.close c) = handleClose ue st c info := by
  simp [step, hconn, hopen]

theorem step_close_closed (ue : Nat → Bool) (st : RelayState) (c : Nat)
    (info : ConnInfo) (hconn : mapGet st.conns c = some info)
    (hopen : info.isOpen = false) :
    step ue st (Event.close c) = (st, []) := by
  simp [step, hconn, hopen]

theorem step_unparseable_state (ue : Nat → Bool) (st : RelayState)
    (c : Nat) : (step ue st (Event.unparseable c)).1 = st := by
  rw [step]
  cases hconn : mapGet st.conns c with
  | none => rfl
  | some info =>
      show (if info.isOpen = true then (st, [Effect.logError])
        else (st, ([] : List Effect))).1 = st
      split <;> rfl

theorem handleParsed_conns (st : RelayState) (c : Nat) (info : ConnInfo)
    (m : WsMessage) :
    (handleParsed st c info m).1.conns = mapSet st.conns c
      { userId := effUid info m, sessionId := effSid info m,
        isOpen := info.isOpen } :=
  rfl

theorem handleParsed_cc (st : RelayState) (c : Nat) (info : ConnInfo)
    (m : WsMessage) :
    (handleParsed st c info m).1.connectedClients =
      (if m.type = some MessageType.sessionJoin then
        mapSet st.connectedClients (effUid info m) c
      else st.connectedClients) :=
  rfl

theorem handleParsed_sc (st : RelayState) (c : Nat) (info : ConnInfo)
    (m : WsMessage) :
    (handleParsed st c info m).1.sessionClients =
      (switchStep
        (if m.type = some MessageType.sessionJoin then
          joinSessionClients st.sessionClients (effSid info m) (effUid info m)
        else st.sessionClients)
        (effSid info m) (effUid info m) m).1 :=
  rfl

theorem handleClose_conns (ue : Nat → Bool) (st : RelayState) (c : Nat)
    (info : ConnInfo) :
    (handleClose ue st c info).1.conns =
      mapSet st.conns c { info with isOpen := false } := by
  simp only [handleClose]
  repeat' (first | rfl | split)

theorem handleClose_cc (ue : Nat → Bool) (st : RelayState) (c : Nat)
    (info : ConnInfo) (h : truthyN info.userId = true) :
    (handleClose ue st c info).1.connectedClients =
      mapDelete st.connectedClients info.userId := by
  simp only [handleClose]
  rw [if_pos h]
  repeat' (first | rfl | split)

theorem handleClose_cc_falsy (ue : Nat → Bool) (st : RelayState) (c : Nat)
    (info : ConnInfo) (h : truthyN info.userId = false) :
    (handleClose ue st c info).1.connectedClients = st.connectedClients := by
  unfold handleClose
  rw [if_neg (by simp [h])]

/-! C4 (amended): the registry tracks join-while-open, not any-event -/

theorem soloFlagStep_ja (f : Bool × Bool × Bool) (e : SoloEv)
    (h : f.2.1 = true → f.1 = true) :
    (soloFlagStep f e).2.1 = true → (soloFlagStep f e).1 = true := by
  obtain ⟨a, j, c⟩ := f
  cases e with
  | msg m => cases c <;> simp [soloFlagStep] <;> exact fun hh => h hh
  | unparseable => exact h
  | close => cases c <;> simp [soloFlagStep] <;> exact fun hh => h hh

theorem solo_step_inv (ue : Nat → Bool) (u : Nat) (hu : u ≠ 0)
    (f : Bool × Bool × Bool) (st : RelayState) (e : SoloEv)
    (hok : ∀ m, e = SoloEv.msg m → m.userId = some u)
    (hja : f.2.1 = true → f.1 = true)
    (hinv : soloInv u f.1 f.2.1 f.2.2 st) :
    soloInv u (soloFlagStep f e).1 (soloFlagStep f e).2.1
      (soloFlagStep f e).2.2 (step ue st (soloEvent e)).1 := by
  obtain ⟨a, j, c⟩ := f
  obtain ⟨⟨sid0, hconn0⟩, hcc0⟩ := hinv
  have hconn : mapGet st.conns 0 = some
      { userId := if a = true then some u else none, sessionId := sid0,
        isOpen := !c } := hconn0
  have hcc : st.connectedClients =
      (if (j && !c) = true then [(some u, 0)] else []) := hcc0
  have hja' : j = true → a = true := hja
  cases e with
  | unparseable =>
      show soloInv u a j c (step ue st (Event.unparseable 0)).1
      rw [step_unparseable_state]
      exact ⟨⟨sid0, hconn⟩, hcc⟩
  | msg m =>
      have hum : m.userId = some u := hok m rfl
      cases c with
      | true =>
          show soloInv u a j true (step ue st (Event.msg 0 m)).1
          rw [step_msg_closed ue st 0 _ m hconn rfl]
          exact ⟨⟨sid0, hconn⟩, hcc⟩
      | false =>
          show soloInv u true
            (j || decide (m.type = some MessageType.sessionJoin)) false
            (step ue st (Event.msg 0 m)).1
          rw [step_msg_open ue st 0 _ m hconn rfl]
          have heff : effUid
              { userId := if a = true then some u else none,
                sessionId := sid0, isOpen := !false } m = some u := by
            cases a
            · simp [effUid, truthyN, hum]
            · simp [effUid, truthyN, hu]
          constructor
          · refine ⟨effSid
              { userId := if a = true then some u else none,
                sessionId := sid0, isOpen := !false } m, ?_⟩
            rw [handleParsed_conns, mapGet_mapSet_self, heff]
            rfl
          · rw [handleParsed_cc]
            by_cases hj : m.type = some MessageType.sessionJoin
            · rw [if_pos hj, heff, hcc]
              have hdj : decide (m.type = some MessageType.sessionJoin)
                  = true := by simp [hj]
              rw [hdj]
              cases j <;> simp [mapSet, mapHas, mapGet]
            · rw [if_neg hj, hcc]
              have hdj : decide (m.type = some MessageType.sessionJoin)
                  = false := by simp [hj]
              rw [hdj]
              simp
  | close =>
      cases c with
      | true =>
          show soloInv u a j true (step ue st (Event.close 0)).1
          rw [step_close_closed ue st 0 _ hconn rfl]
          exact ⟨⟨sid0, hconn⟩, hcc⟩
      | false =>
          show soloInv u a j true (step ue st (Event.close 0)).1
          rw [step_close_open ue st 0 _ hconn rfl]
          constructor
          · exact ⟨sid0, by rw [handleClose_conns, mapGet_mapSet_self]; rfl⟩
          · cases a with
            | true =>
                rw [handleClose_cc ue st 0 _ (by simp [truthyN, hu]), hcc]
                cases j <;> simp [mapDelete, List.filter]
            | false =>
                have hjf : j = false := by
                  cases j
                  · rfl
                  · exact absurd (hja' rfl) (by simp)
                rw [handleClose_cc_falsy ue st 0 _ (by simp [truthyN]), hcc]
                simp [hjf]

theorem solo_fold_inv (ue : Nat → Bool) (u : Nat) (hu : u ≠ 0)
    (l : List SoloEv) :
    ∀ (f : Bool × Bool × Bool) (st : RelayState),
      (∀ m, SoloEv.msg m ∈ l → m.userId = some u) →
      (f.2.1 = true → f.1 = true) →
      soloInv u f.1 f.2.1 f.2.2 st →
      soloInv u (l.foldl soloFlagStep f).1 (l.foldl soloFlagStep f).2.1
        (l.foldl soloFlagStep f).2.2 (runState ue st (l.map soloEvent)) := by
  induction l with
  | nil => intro f st _ _ hinv; exact hinv
  | cons e t ih =>
      intro f st hok hja hinv
      rw [List.map_cons, List.foldl_cons, runState, List.foldl_cons]
      exact ih (soloFlagStep f e) (step ue st (soloEvent e)).1
        (fun m hm => hok m (List.mem_cons_of_mem _ hm))
        (soloFlagStep_ja f e hja)
        (solo_step_inv ue u hu f st e
          (fun m hm => hok m (by rw [hm]; exact List.mem_cons_self _ _))
          hja hinv)

theorem soloFlags_fix (l : List SoloEv) (a j : Bool) :
    l.foldl soloFlagStep (a, j, true) = (a, j, true) := by
  induction l with
  | nil => rfl
  | cons e t ih =>
      rw [List.foldl_cons]
      cases e with
      | msg m => exact ih
      | unparseable => exact ih
      | close => exact ih

theorem solo_flags_combined (l : List SoloEv) :
    ∀ a j : Bool,
      ((l.foldl soloFlagStep (a, j, false)).2.1 &&
        !(l.foldl soloFlagStep (a, j, false)).2.2) =
      ((j || soloHasJoin l) && !soloHasClose l) := by
  induction l with
  | nil => intro a j; simp [soloHasJoin, soloHasClose]
  | cons e t ih =>
      intro a j
      rw [List.foldl_cons]
      cases e with
      | msg m =>
          show ((t.foldl soloFlagStep
              (true, j || decide (m.type = some MessageType.sessionJoin),
                false)).2.1 &&
            !(t.foldl soloFlagStep
              (true, j || decide (m.type = some MessageType.sessionJoin),
                false)).2.2) = _
          rw [ih]
          simp [soloHasJoin, soloHasClose, Bool.or_assoc]
      | unparseable =>
          show ((t.foldl soloFlagStep (a, j, false)).2.1 &&
            !(t.foldl soloFlagStep (a, j, false)).2.2) = _
          rw [ih]
          simp [soloHasJoin, soloHasClose]
      | close =>
          show ((t.foldl soloFlagStep (a, j, true)).2.1 &&
            !(t.foldl soloFlagStep (a, j, true)).2.2) = _
          rw [soloFlags_fix]
          simp [soloHasClose, List.any_cons]

/-- C4 (amended): over any single-connection activity whose messages all
carry the participant id `u` (nonzero), the participant is present in the
connection registry — mapped to this socket — iff the connection sent at
least one `session-join` and has not closed.  (The original claim's "at
least one event of any kind" fails: see the counterexample.) -/
theorem registry_iff_joined (ue : Nat → Bool) (u : Nat) (hu : u ≠ 0)
    (l : List SoloEv) (hok : soloUserOk u l) :
    mapGet (runState ue initState (soloTrace l)).connectedClients (some u) =
      (if soloHasJoin l && !soloHasClose l then some 0 else none) := by
  have h0 : soloInv u false false false
      (step ue initState (Event.connect 0)).1 := by
    constructor
    · exact ⟨none, by simp [step, initState, mapHas, mapGet, mapSet]⟩
    · simp [step, initState, mapHas, mapGet, mapSet]
  have hinv := solo_fold_inv ue u hu l (false, false, false)
    (step ue initState (Event.connect 0)).1 hok (by simp) h0
  obtain ⟨-, hcc⟩ := hinv
  rw [soloTrace, runState, List.foldl_cons]
  have hrs : List.foldl (fun s e => (step ue s e).1)
      (step ue initState (Event.connect 0)).1 (l.map soloEvent) =
      runState ue (step ue initState (Event.connect 0)).1
        (l.map soloEvent) := rfl
  rw [hrs, hcc]
  have hflags := solo_flags_combined l false false
  rw [Bool.false_or] at hflags
  rw [hflags]
  cases hb : (soloHasJoin l && !soloHasClose l) <;> simp [mapGet]

/-- Witness for `registry_iff_joined`: a single join registers user 1 on
socket 0. -/
theorem registry_iff_joined_witness :
    mapGet (runState allUsers initState
      (soloTrace [SoloEv.msg (joinMsg 7 1)])).connectedClients (some 1) =
      (if soloHasJoin [SoloEv.msg (joinMsg 7 1)] &&
          !soloHasClose [SoloEv.msg (joinMsg 7 1)] then some 0 else none) :=
  registry_iff_joined allUsers 1 (by decide) [SoloEv.msg (joinMsg 7 1)]
    (fun m hm => by
      simp only [List.mem_singleton, SoloEv.msg.injEq] at hm
      rw [hm]
      rfl)

/-! C3: membership equals "joined more recently than last left" -/

theorem runState_append (ue : Nat → Bool) (st : RelayState)
    (l₁ l₂ : List Event) :
    runState ue st (l₁ ++ l₂) = runState ue (runState ue st l₁) l₂ := by
  simp [runState, List.foldl_append]

theorem everSeen_append {n : Nat} (done : List (Fin n × Bool)) (i : Fin n)
    (b : Bool) (k : Fin n) :
    everSeen (done ++ [(i, b)]) k = (everSeen done k || decide (i = k)) := by
  simp [everSeen, List.any_append]

theorem everJoined_append {n : Nat} (done : List (Fin n × Bool)) (i : Fin n)
    (b : Bool) (k : Fin n) :
    everJoined (done ++ [(i, b)]) k =
      (everJoined done k || (decide (i = k) && b)) := by
  simp [everJoined, List.any_append]

theorem lastJoined_append {n : Nat} (done : List (Fin n × Bool)) (i : Fin n)
    (b : Bool) (k : Fin n) :
    lastJoined (done ++ [(i, b)]) k =
      if i = k then b else lastJoined done k := by
  simp [lastJoined, List.foldl_append]

theorem lastJoined_implies_everJoined {n : Nat} :
    ∀ (done : List (Fin n × Bool)) (k : Fin n),
      lastJoined done k = true → everJoined done k = true := by
  intro done
  induction done using List.reverseRecOn with
  | nil => intro k h; simp [lastJoined] at h
  | append_singleton t e ih =>
      intro k h
      obtain ⟨i, b⟩ := e
      rw [lastJoined_append] at h
      rw [everJoined_append]
      by_cases hik : i = k
      · rw [if_pos hik] at h
        subst h
        simp [hik]
      · rw [if_neg hik] at h
        rw [ih k h]
        simp

theorem mapGet_range_fresh (n j : Nat) :
    mapGet ((List.range n).map (fun k => (k, ({} : ConnInfo)))) j =
      if j < n then some {} else none := by
  induction n with
  | zero => simp [mapGet]
  | succ n ih =>
      rw [List.range_succ, List.map_append, mapGet_append, ih]
      by_cases hj : j < n
      · simp [hj, Nat.lt_succ_of_lt hj]
      · simp only [hj, if_false, Option.isSome_none, Bool.false_eq_true,
          if_false]
        by_cases hjn : j = n
        · simp [mapGet, hjn]
        · have h1 : ¬j < n + 1 := by omega
          have h2 : ¬n = j := fun h => hjn h.symm
          simp [mapGet, h1, h2]

theorem connect_state (ue : Nat → Bool) (n : Nat) :
    runState ue initState (connectTrace n) =
      { connectedClients := [], sessionClients := [],
        conns := (List.range n).map (fun k => (k, {})) } := by
  induction n with
  | zero => rfl
  | succ n ih =>
      have hfresh : mapHas ((List.range n).map
          (fun k => (k, ({} : ConnInfo)))) n = false := by
        unfold mapHas
        rw [show mapGet ((List.range n).map (fun k => (k, ({} : ConnInfo)))) n
            = none by rw [mapGet_range_fresh]; simp]
        rfl
      rw [connectTrace, List.range_succ, List.map_append,
        ← connectTrace, runState_append, ih]
      simp only [List.map_cons, List.map_nil, runState, List.foldl_cons,
        List.foldl_nil, step]
      rw [if_neg (by simp [hfresh]), mapSet, if_neg (by simp [hfresh])]
      simp [List.map_append]

theorem handleParsed_sc_join (st : RelayState) (c : Nat) (info : ConnInfo)
    (S v : Nat) :
    (handleParsed st c info (joinMsg S v)).1.sessionClients =
      joinSessionClients st.sessionClients (some S)
        (effUid info (joinMsg S v)) := by
  rw [handleParsed_sc]
  rw [switchStep_sc_of_not_leave _ _ _ _ (by simp [joinMsg])]
  rfl

theorem handleParsed_sc_leave (st : RelayState) (c : Nat) (info : ConnInfo)
    (S v : Nat) :
    (handleParsed st c info (leaveMsg S v)).1.sessionClients =
      (switchStep st.sessionClients info.sessionId
        (effUid info (leaveMsg S v)) (leaveMsg S v)).1 :=
  rfl

theorem switchStep_leave_eq (sc : List (Option Nat × List (Option Nat)))
    (sid uid : Option Nat) (S v : Nat) :
    switchStep sc sid uid (leaveMsg S v) =
      (if (truthyN sid && truthyN uid) = true then
        (mapAdjust sc sid (fun l => setDelete l uid),
         if mapGet (mapAdjust sc sid (fun l => setDelete l uid)) sid
             = some ([] : List (Option Nat))
         then [Effect.endSession (sid.getD 0)] else [])
      else (sc, [])) :=
  rfl

theorem jl_step_inv (ue : Nat → Bool) {n : Nat} (S : Nat) (u : Fin n → Nat)
    (hinj : Function.Injective u) (h0 : ∀ i, u i ≠ 0) (hS : S ≠ 0)
    (done : List (Fin n × Bool)) (st : RelayState) (e : Fin n × Bool)
    (hinv : jlInv S u done st) :
    jlInv S u (done ++ [e]) (step ue st (jlEvent S u e)).1 := by
  obtain ⟨i, b⟩ := e
  obtain ⟨hconns, hsc⟩ := hinv
  have hconn : mapGet st.conns i.val = some
      { userId := if everSeen done i = true then some (u i) else none,
        sessionId := if everJoined done i = true then some S else none,
        isOpen := true } := hconns i
  have hvalne : ∀ k : Fin n, k ≠ i → k.val ≠ i.val := by
    intro k hk hkv
    exact hk (Fin.ext hkv)
  cases b with
  | true =>
      show jlInv S u (done ++ [(i, true)])
        (step ue st (Event.msg i.val (joinMsg S (u i)))).1
      rw [step_msg_open ue st i.val _ _ hconn rfl]
      have heff : effUid
          { userId := if everSeen done i = true then some (u i) else none,
            sessionId := if everJoined done i = true then some S else none,
            isOpen := true } (joinMsg S (u i)) = some (u i) := by
        by_cases hs : everSeen done i = true <;>
          simp [effUid, truthyN, hs, joinMsg, h0 i]
      have hesid : effSid
          { userId := if everSeen done i = true then some (u i) else none,
            sessionId := if everJoined done i = true then some S else none,
            isOpen := true } (joinMsg S (u i)) = some S := rfl
      constructor
      · intro k
        rw [handleParsed_conns]
        by_cases hk : k = i
        · subst hk
          rw [mapGet_mapSet_self, heff, hesid]
          rw [everSeen_append, everJoined_append]
          simp
        · rw [mapGet_mapSet_ne _ _ (hvalne k hk)]
          rw [everSeen_append, everJoined_append]
          have hik : decide (i = k) = false :=
            decide_eq_false (fun h => hk h.symm)
          rw [hik]
          simp only [Bool.or_false, Bool.false_and]
          exact hconns k
      · rw [handleParsed_sc_join, heff]
        rcases hsc with ⟨hnone, hnoj⟩ | ⟨l, hl, hiff⟩
        · right
          refine ⟨[some (u i)], ?_, ?_⟩
          · rw [joinSessionClients]
            rw [if_neg (by simp [mapHas, hnone])]
            rw [mapGet_mapAdjust_self, mapGet_mapSet_self]
            simp [setAdd]
          · intro x
            constructor
            · intro hx
              simp only [List.mem_singleton] at hx
              refine ⟨i, hx, ?_⟩
              rw [lastJoined_append, if_pos rfl]
            · rintro ⟨k, hx, hlj⟩
              rw [lastJoined_append] at hlj
              by_cases hik : i = k
              · subst hik
                simp [hx]
              · rw [if_neg hik] at hlj
                exact absurd (lastJoined_implies_everJoined done k hlj)
                  (by simp [hnoj k])
        · right
          refine ⟨setAdd l (some (u i)), ?_, ?_⟩
          · rw [joinSessionClients]
            rw [if_pos (by simp [mapHas, hl])]
            rw [mapGet_mapAdjust_self, hl]
            rfl
          · intro x
            rw [mem_setAdd]
            constructor
            · rintro (hx | hx)
              · obtain ⟨k, hxk, hlj⟩ := (hiff x).mp hx
                refine ⟨k, hxk, ?_⟩
                rw [lastJoined_append]
                by_cases hik : i = k
                · rw [if_pos hik]
                · rw [if_neg hik]; exact hlj
              · refine ⟨i, hx, ?_⟩
                rw [lastJoined_append, if_pos rfl]
            · rintro ⟨k, hxk, hlj⟩
              rw [lastJoined_append] at hlj
              by_cases hik : i = k
              · subst hik
                exact Or.inr hxk
              · rw [if_neg hik] at hlj
                exact Or.inl ((hiff x).mpr ⟨k, hxk, hlj⟩)
  | false =>
      show jlInv S u (done ++ [(i, false)])
        (step ue st (Event.msg i.val (leaveMsg S (u i)))).1
      rw [step_msg_open ue st i.val _ _ hconn rfl]
      have heff : effUid
          { userId := if everSeen done i = true then some (u i) else none,
            sessionId := if everJoined done i = true then some S else none,
            isOpen := true } (leaveMsg S (u i)) = some (u i) := by
        by_cases hs : everSeen done i = true <;>
          simp [effUid, truthyN, hs, leaveMsg, h0 i]
      have hesid : effSid
          { userId := if everSeen done i = true then some (u i) else none,
            sessionId := if everJoined done i = true then some S else none,
            isOpen := true } (leaveMsg S (u i)) =
          (if everJoined done i = true then some S else none) := rfl
      constructor
      · intro k
        rw [handleParsed_conns]
        by_cases hk : k = i
        · subst hk
          rw [mapGet_mapSet_self, heff, hesid]
          rw [everSeen_append, everJoined_append]
          simp
        · rw [mapGet_mapSet_ne _ _ (hvalne k hk)]
          rw [everSeen_append, everJoined_append]
          have hik : decide (i = k) = false :=
            decide_eq_false (fun h => hk h.symm)
          rw [hik]
          simp only [Bool.or_false, Bool.false_and]
          exact hconns k
      · rw [handleParsed_sc_leave, heff]
        have hlast : ∀ k : Fin n, lastJoined (done ++ [(i, false)]) k =
            if i = k then false else lastJoined done k := by
          intro k
          rw [lastJoined_append]
        by_cases hej : everJoined done i = true
        · -- the leaver had joined: its remembered session is S
          rw [switchStep_leave_eq]
          rw [if_pos (by simp [hej, truthyN, hS, h0 i])]
          simp only [hej, if_true]
          rcases hsc with ⟨hnone, hnoj⟩ | ⟨l, hl, hiff⟩
          · exact absurd hej (by simp [hnoj i])
          · right
            refine ⟨setDelete l (some (u i)), ?_, ?_⟩
            · show mapGet (mapAdjust st.sessionClients (some S)
                (fun l => setDelete l (some (u i)))) (some S) = _
              rw [mapGet_mapAdjust_self, hl]
              rfl
            · intro x
              rw [mem_setDelete]
              constructor
              · rintro ⟨hx, hxne⟩
                obtain ⟨k, hxk, hlj⟩ := (hiff x).mp hx
                have hik : ¬i = k := by
                  intro hik
                  subst hik
                  exact hxne hxk
                refine ⟨k, hxk, ?_⟩
                rw [hlast, if_neg hik]
                exact hlj
              · rintro ⟨k, hxk, hlj⟩
                rw [hlast] at hlj
                by_cases hik : i = k
                · rw [if_pos hik] at hlj
                  exact absurd hlj (by simp)
                · rw [if_neg hik] at hlj
                  refine ⟨(hiff x).mpr ⟨k, hxk, hlj⟩, ?_⟩
                  rw [hxk]
                  intro hcontra
                  exact hik (hinj (Option.some_injective _ hcontra)).symm
        · -- the leaver never joined: no remembered session, a no-op
          have hlji : lastJoined done i = false := by
            cases hlj : lastJoined done i with
            | false => rfl
            | true =>
                exact absurd (lastJoined_implies_everJoined done i hlj) hej
          rw [if_neg hej, switchStep_leave_eq,
            if_neg (by simp [truthyN])]
          rcases hsc with ⟨hnone, hnoj⟩ | ⟨l, hl, hiff⟩
          · left
            refine ⟨hnone, ?_⟩
            intro k
            rw [everJoined_append]
            simp [hnoj k]
          · right
            refine ⟨l, hl, ?_⟩
            intro x
            rw [hiff x]
            constructor
            · rintro ⟨k, hxk, hlj⟩
              have hik : ¬i = k := by
                intro hik
                subst hik
                rw [hlji] at hlj
                exact absurd hlj (by simp)
              refine ⟨k, hxk, ?_⟩
              rw [hlast, if_neg hik]
              exact hlj
            · rintro ⟨k, hxk, hlj⟩
              rw [hlast] at hlj
              by_cases hik : i = k
              · rw [if_pos hik] at hlj
                exact absurd hlj (by simp)
              · rw [if_neg hik] at hlj
                exact ⟨k, hxk, hlj⟩

theorem jl_fold_inv (ue : Nat → Bool) {n : Nat} (S : Nat) (u : Fin n → Nat)
    (hinj : Function.Injective u) (h0 : ∀ i, u i ≠ 0) (hS : S ≠ 0)
    (evts : List (Fin n × Bool)) :
    ∀ (done : List (Fin n × Bool)) (st : RelayState), jlInv S u done st →
      jlInv S u (done ++ evts)
        (runState ue st (evts.map (jlEvent S u))) := by
  induction evts with
  | nil => intro done st h; simpa using h
  | cons e t ih =>
      intro done st h
      rw [List.map_cons, runState, List.foldl_cons]
      have hrec := ih (done ++ [e]) (step ue st (jlEvent S u e)).1
        (jl_step_inv ue S u hinj h0 hS done st e h)
      simpa using hrec

theorem jl_init (ue : Nat → Bool) {n : Nat} (S : Nat) (u : Fin n → Nat) :
    jlInv S u [] (runState ue initState (connectTrace n)) := by
  rw [connect_state]
  constructor
  · intro i
    show mapGet ((List.range n).map (fun k => (k, ({} : ConnInfo)))) i.val
      = _
    rw [mapGet_range_fresh, if_pos i.isLt]
    simp [everSeen, everJoined]
  · left
    exact ⟨rfl, fun i => rfl⟩

/-- C3: for every sequence of join/leave messages by a fixed set of
participants (distinct nonzero ids, one socket each) on a single session
`S`, the resulting membership set of `S` contains exactly the
participants whose most recent event is a join — i.e. who joined more
recently than they last left. -/
theorem membership_matches_lastJoined (ue : Nat → Bool) (n S : Nat)
    (u : Fin n → Nat) (hinj : Function.Injective u) (h0 : ∀ i, u i ≠ 0)
    (hS : S ≠ 0) (evts : List (Fin n × Bool)) (x : Option Nat) :
    x ∈ membersOf (runState ue initState
        (connectTrace n ++ evts.map (jlEvent S u))) S ↔
      ∃ i, x = some (u i) ∧ lastJoined evts i = true := by
  rw [runState_append]
  have hinv := jl_fold_inv ue S u hinj h0 hS evts [] _ (jl_init ue S u)
  rw [List.nil_append] at hinv
  obtain ⟨-, hsc⟩ := hinv
  rcases hsc with ⟨hnone, hnoj⟩ | ⟨l, hl, hiff⟩
  · rw [membersOf, hnone]
    simp only [Option.getD_none, List.not_mem_nil, false_iff]
    rintro ⟨i, -, hlj⟩
    exact absurd (lastJoined_implies_everJoined evts i hlj)
      (by simp [hnoj i])
  · rw [membersOf, hl]
    exact hiff x

/-- Witness for `membership_matches_lastJoined`: participants 1 and 2
join session 7, then participant 1 leaves; participant 2 (who joined more
recently than they left — never left) is in the set. -/
theorem membership_matches_lastJoined_witness :
    some 2 ∈ membersOf (runState allUsers initState
        (connectTrace 2 ++ ([((0 : Fin 2), true), ((1 : Fin 2), true),
          ((0 : Fin 2), false)].map
            (jlEvent 7 (fun i : Fin 2 => i.val + 1)))) ) 7 ↔
      ∃ i : Fin 2, (some 2 : Option Nat) = some (i.val + 1) ∧
        lastJoined [((0 : Fin 2), true), ((1 : Fin 2), true),
          ((0 : Fin 2), false)] i = true :=
  membership_matches_lastJoined allUsers 2 7 (fun i => i.val + 1)
    (by decide) (by decide) (by decide)
    [((0 : Fin 2), true), ((1 : Fin 2), true), ((0 : Fin 2), false)]
    (some 2)

end CodePair
